import Mathlib

/-!
Verification of the Hedger numeric core (odds normalizer, fee engine,
cover/equalize solver) against its natural-language specification.

The source is JavaScript/TypeScript working on IEEE doubles; the embedding
works over `ℚ`, modelling `Math.round` exactly (round half toward +∞) and
`Math.floor` as `Int.floor`.  Fallible functions (those that `throw` or
return `null`) are modelled with `Option`.
-/

namespace Hedger

/-- JavaScript `Math.round`: rounds half toward positive infinity. -/
def jsRound (x : ℚ) : ℤ := ⌊x + 1/2⌋

/-- `r2` from `fees.ts` / the fee module: `Math.round(x * 100) / 100`. -/
def r2 (x : ℚ) : ℚ := (jsRound (x * 100) : ℚ) / 100

/-- A value is cent-aligned when it is a whole number of hundredths. -/
def Cent (x : ℚ) : Prop := ∃ n : ℤ, x = (n : ℚ) / 100

theorem cent_of_r2_fix {x : ℚ} (h : r2 x = x) : Cent x := ⟨jsRound (x * 100), h.symm⟩

theorem r2_cent {x : ℚ} (h : Cent x) : r2 x = x := by
  obtain ⟨n, rfl⟩ := h
  have h100 : ((n : ℚ) / 100) * 100 = (n : ℚ) := by ring
  have hfloor : ⌊(n : ℚ) + 1/2⌋ = n := by
    rw [Int.floor_eq_iff]
    constructor <;> [skip; push_cast] <;> linarith
  simp only [r2, jsRound, h100, hfloor]

theorem cent_r2 (x : ℚ) : Cent (r2 x) := ⟨jsRound (x * 100), rfl⟩

theorem cent_add {x y : ℚ} (hx : Cent x) (hy : Cent y) : Cent (x + y) := by
  obtain ⟨n, rfl⟩ := hx; obtain ⟨m, rfl⟩ := hy
  exact ⟨n + m, by push_cast; ring⟩

theorem cent_sub {x y : ℚ} (hx : Cent x) (hy : Cent y) : Cent (x - y) := by
  obtain ⟨n, rfl⟩ := hx; obtain ⟨m, rfl⟩ := hy
  exact ⟨n - m, by push_cast; ring⟩

theorem jsRound_nonneg {x : ℚ} (h : 0 ≤ x) : 0 ≤ jsRound x := by
  have : (0 : ℚ) ≤ x + 1/2 := by linarith
  exact Int.floor_nonneg.mpr (by linarith)

theorem r2_nonneg {x : ℚ} (h : 0 ≤ x) : 0 ≤ r2 x := by
  have h1 : 0 ≤ jsRound (x * 100) := jsRound_nonneg (by positivity)
  have h2 : (0 : ℚ) ≤ (jsRound (x * 100) : ℚ) := by exact_mod_cast h1
  unfold r2
  positivity

/-! ### Fee engine (`fees.ts` / fee module) -/

/-- Output record of `kalshiLedger`. -/
structure KalshiLedger where
  contracts : ℤ
  cost : ℚ
  openFee : ℚ
  settleFee : ℚ
  netPayout : ℚ
  profit : ℚ
deriving DecidableEq

/-- `kalshiLedger(stake, price, fOpen, fSettle)`: two-phase contract fee
model.  Throws (here: `none`) when the price is outside `(0, 1)`. -/
def kalshiLedger (stake price fOpen fSettle : ℚ) : Option KalshiLedger :=
  if price ≤ 0 ∨ 1 ≤ price then none
  else
    let contracts : ℤ := ⌊stake / price⌋
    let cost := r2 ((contracts : ℚ) * price)
    let openFee := r2 (cost * fOpen)
    let settleFee := r2 ((contracts : ℚ) * fSettle)
    let netPayout := r2 ((contracts : ℚ) - settleFee)
    let profit := r2 (netPayout - (cost + openFee))
    some ⟨contracts, cost, openFee, settleFee, netPayout, profit⟩

/-- Fee breakdown inside a `FeeResult`. -/
structure FeesBreakdown where
  openFee : Option ℚ := none
  settleFee : Option ℚ := none
  winFee : Option ℚ := none
  total : ℚ
deriving DecidableEq

/-- Unified fee result returned by all fee adapters. -/
structure FeeResult where
  payout : ℚ
  profitBeforeFees : ℚ
  feesBreakdown : FeesBreakdown
  netProfit : ℚ
deriving DecidableEq

/-- `applyNoFees(stake, profitBeforeFees)`. -/
def applyNoFees (stake profitBeforeFees : ℚ) : FeeResult :=
  { payout := r2 (stake + profitBeforeFees)
    profitBeforeFees := r2 profitBeforeFees
    feesBreakdown := { total := 0 }
    netProfit := r2 profitBeforeFees }

/-- ASCII lower-casing of a character, as `String.prototype.toLowerCase`
acts on ASCII input. -/
def jsToLower (c : Char) : Char :=
  if 'A' ≤ c ∧ c ≤ 'Z' then Char.ofNat (c.toNat + 32) else c

/-- ASCII upper-casing of a character, as `String.prototype.toUpperCase`
acts on ASCII input. -/
def jsToUpper (c : Char) : Char :=
  if 'a' ≤ c ∧ c ≤ 'z' then Char.ofNat (c.toNat - 32) else c

/-- Whitespace class used by `String.prototype.trim` and the `\s` regex
class (restricted to the ASCII members plus NBSP). -/
def jsIsSpace (c : Char) : Bool :=
  c = ' ' ∨ c = '\t' ∨ c = '\n' ∨ c = '\r' ∨ c = '\x0b' ∨ c = '\x0c' ∨ c = ' '

/-- `s.trim()` on the character list. -/
def jsTrim (s : List Char) : List Char :=
  ((s.dropWhile jsIsSpace).reverse.dropWhile jsIsSpace).reverse

/-- `sportsbook.trim().toUpperCase()` from `applyProphetXFee`. -/
def bookNorm (s : String) : String :=
  String.mk ((jsTrim s.data).map jsToUpper)

/-- `applyProphetXFee(stake, profitBeforeFees, sportsbook?)`: marker
`"PX!"` (after trim/uppercase) deducts 1% of positive profit; anything
else falls through to `applyNoFees`. -/
def applyProphetXFee (stake profitBeforeFees : ℚ) (sportsbook : Option String) : FeeResult :=
  match sportsbook with
  | none => applyNoFees stake profitBeforeFees
  | some s =>
    let book := bookNorm s
    if book = "PX!" ∧ 0 < profitBeforeFees then
      let winFee := r2 (profitBeforeFees * (1/100))
      let netProfit := r2 (profitBeforeFees - winFee)
      { payout := r2 (stake + netProfit)
        profitBeforeFees := r2 profitBeforeFees
        feesBreakdown := { winFee := some winFee, total := winFee }
        netProfit := netProfit }
    else applyNoFees stake profitBeforeFees

/-- `applyKalshiYesFees(stake, price, fOpen, fSettle)`: wraps
`kalshiLedger` into a `FeeResult`. -/
def applyKalshiYesFees (stake price fOpen fSettle : ℚ) : Option FeeResult :=
  (kalshiLedger stake price fOpen fSettle).map fun ledger =>
    { payout := ledger.netPayout
      profitBeforeFees := r2 ((ledger.contracts : ℚ) - ledger.cost)
      feesBreakdown :=
        { openFee := some ledger.openFee
          settleFee := some ledger.settleFee
          total := r2 (ledger.openFee + ledger.settleFee) }
      netProfit := ledger.profit }

/-- `applyKalshiNoFees(stake, price, fOpen, fSettle)`: NO-side contract
fees; the settlement fee is charged on the gross profit
`price * contracts`. -/
def applyKalshiNoFees (stake price fOpen fSettle : ℚ) : FeeResult :=
  let noPrice := 1 - price
  let contracts : ℤ := ⌊stake / noPrice⌋
  let cost := r2 ((contracts : ℚ) * noPrice)
  let openFee := r2 (cost * fOpen)
  let grossProfit := r2 (price * (contracts : ℚ))
  let settleFee := r2 (grossProfit * fSettle)
  let netPayout := r2 (grossProfit - settleFee)
  let netProfit := r2 (netPayout - (cost + openFee))
  { payout := netPayout
    profitBeforeFees := grossProfit
    feesBreakdown :=
      { openFee := some openFee
        settleFee := some settleFee
        total := r2 (openFee + settleFee) }
    netProfit := netProfit }

/-- `applyCustomFeesUnified(stake, profitBeforeFees, openFeePct, winFeePct)`. -/
def applyCustomFeesUnified (stake profitBeforeFees openFeePct winFeePct : ℚ) : FeeResult :=
  let openFee := r2 (stake * openFeePct)
  let winFee := if 0 < profitBeforeFees then r2 (profitBeforeFees * winFeePct) else 0
  let totalFees := r2 (openFee + winFee)
  let netProfit := r2 (profitBeforeFees - totalFees)
  { payout := r2 (stake + netProfit)
    profitBeforeFees := r2 profitBeforeFees
    feesBreakdown := { openFee := some openFee, winFee := some winFee, total := totalFees }
    netProfit := netProfit }

/-! ### Claims C1 and C2: the two-phase contract ledger -/

/-- C2: `kalshiLedger(100, 0.50, 0.01, 0.02)` returns exactly
`contracts=200, cost=100, openFee=1, settleFee=4, netPayout=196,
profit=95`, and for every valid stake and price the returned ledger
satisfies `contracts = ⌊stake/price⌋`, `cost = round2(contracts*price)`,
`netPayout = round2(contracts - settleFee)` and
`profit = round2(netPayout - (cost + openFee))`. -/
theorem kalshiLedger_example_and_invariants :
    kalshiLedger 100 (1/2) (1/100) (1/50) = some ⟨200, 100, 1, 4, 196, 95⟩ ∧
    ∀ stake price fOpen fSettle : ℚ, 0 < price → price < 1 →
      ∃ l, kalshiLedger stake price fOpen fSettle = some l ∧
        l.contracts = ⌊stake / price⌋ ∧
        l.cost = r2 ((l.contracts : ℚ) * price) ∧
        l.netPayout = r2 ((l.contracts : ℚ) - l.settleFee) ∧
        l.profit = r2 (l.netPayout - (l.cost + l.openFee)) := by
  constructor
  · simp only [kalshiLedger]
    norm_num [r2, jsRound, KalshiLedger.mk.injEq]
  · intro stake price fOpen fSettle h0 h1
    have hcond : ¬ (price ≤ 0 ∨ 1 ≤ price) := by push_neg; exact ⟨h0, h1⟩
    simp only [kalshiLedger, if_neg hcond]
    exact ⟨_, rfl, rfl, rfl, rfl, rfl⟩

/-- Witness for C2: the universal invariants instantiated at
stake 53, price 0.7, rates 1%/2%. -/
theorem kalshiLedger_example_and_invariants_witness :
    (0 : ℚ) < 7/10 ∧ (7/10 : ℚ) < 1 ∧
    ∃ l, kalshiLedger 53 (7/10) (1/100) (1/50) = some l ∧
      l.contracts = ⌊(53 : ℚ) / (7/10)⌋ ∧
      l.cost = r2 ((l.contracts : ℚ) * (7/10)) ∧
      l.netPayout = r2 ((l.contracts : ℚ) - l.settleFee) ∧
      l.profit = r2 (l.netPayout - (l.cost + l.openFee)) :=
  ⟨by norm_num, by norm_num,
    kalshiLedger_example_and_invariants.2 53 (7/10) (1/100) (1/50)
      (by norm_num) (by norm_num)⟩

/-- C1 counterexample: on the YES side the settlement fee is charged on
the gross contract count, not on profit.  At stake=100, price=0.50,
settleRate=0.02 the ledger's `settleFee` is 4, while
`round2(grossProfit * settleRate) = round2((200-100) * 0.02) = 2`. -/
theorem settleFee_not_on_profit_counterexample :
    (kalshiLedger 100 (1/2) (1/100) (1/50)).map KalshiLedger.settleFee = some 4 ∧
    r2 ((200 - 100) * (1/50)) = 2 ∧ (4 : ℚ) ≠ 2 := by
  refine ⟨?_, by norm_num [r2, jsRound], by norm_num⟩
  simp only [kalshiLedger]
  norm_num [r2, jsRound]

/-- C1 amended: the YES-side ledger charges
`settleFee = round2(contracts * settleRate)` (on the gross contract
count), while the NO-side adapter charges
`settleFee = round2(grossProfit * settleRate)` with
`grossProfit = round2(price * contracts)`. -/
theorem settleFee_base_amended :
    ∀ stake price fOpen fSettle : ℚ, 0 < price → price < 1 →
      (∃ l, kalshiLedger stake price fOpen fSettle = some l ∧
        l.settleFee = r2 ((l.contracts : ℚ) * fSettle)) ∧
      (applyKalshiNoFees stake price fOpen fSettle).feesBreakdown.settleFee =
        some (r2 ((applyKalshiNoFees stake price fOpen fSettle).profitBeforeFees * fSettle)) := by
  intro stake price fOpen fSettle h0 h1
  have hcond : ¬ (price ≤ 0 ∨ 1 ≤ price) := by push_neg; exact ⟨h0, h1⟩
  constructor
  · simp only [kalshiLedger, if_neg hcond]
    exact ⟨_, rfl, rfl⟩
  · rfl

/-- Witness for the amended C1 at stake=100, price=0.62, rates 1%/2%. -/
theorem settleFee_base_amended_witness :
    (0 : ℚ) < 31/50 ∧ (31/50 : ℚ) < 1 ∧
    ((∃ l, kalshiLedger 100 (31/50) (1/100) (1/50) = some l ∧
        l.settleFee = r2 ((l.contracts : ℚ) * (1/50))) ∧
      (applyKalshiNoFees 100 (31/50) (1/100) (1/50)).feesBreakdown.settleFee =
        some (r2 ((applyKalshiNoFees 100 (31/50) (1/100) (1/50)).profitBeforeFees * (1/50)))) :=
  ⟨by norm_num, by norm_num,
    settleFee_base_amended 100 (31/50) (1/100) (1/50) (by norm_num) (by norm_num)⟩

/-! ### Claim C9: the 2-decimal rounding mode -/

/-- Modelled from the spec's words "round-half-away-from-zero": the
integer rounding that maps a half to the integer of larger magnitude. -/
def roundHalfAwayFromZero (x : ℚ) : ℤ :=
  if 0 ≤ x then ⌊x + 1/2⌋ else -⌊-x + 1/2⌋

/-- 2-decimal money rounding as the spec describes it
(round-half-away-from-zero). -/
def r2Away (x : ℚ) : ℚ := (roundHalfAwayFromZero (x * 100) : ℚ) / 100

/-- C9 counterexample: `r2` is JavaScript `Math.round(x*100)/100`, which
rounds halves toward +∞, so `r2(-0.005) = 0`, not the `-0.01` that
round-half-away-from-zero would give. -/
theorem r2_neg_half_counterexample :
    r2 (-(1/200)) = 0 ∧ r2Away (-(1/200)) = -(1/100) ∧ (0 : ℚ) ≠ -(1/100) := by
  refine ⟨by norm_num [r2, jsRound], ?_, by norm_num⟩
  rw [r2Away, roundHalfAwayFromZero]
  norm_num

/-- C9 amended: `r2` implements round-half-up (toward +∞),
`⌊100x + 1/2⌋ / 100`.  It agrees with round-half-away-from-zero on all
`x ≥ 0`; on a negative input whose cent value is an exact half it gives
exactly one cent more than round-half-away-from-zero (it rounds toward
zero there, e.g. `r2(-0.005) = 0`, not `-0.01`). -/
theorem r2_round_half_up_amended :
    (∀ x : ℚ, 0 ≤ x → r2 x = r2Away x) ∧
    (∀ x : ℚ, x < 0 → Int.fract (x * 100) = 1/2 → r2 x = r2Away x + 1/100) := by
  constructor
  · intro x hx
    rw [r2, r2Away, roundHalfAwayFromZero, if_pos (by positivity), jsRound]
  · intro x hx hf
    have hn : x * 100 = (⌊x * 100⌋ : ℚ) + 1/2 := by
      rw [Int.fract] at hf; linarith
    have h1 : jsRound (x * 100) = ⌊x * 100⌋ + 1 := by
      have harg : x * 100 + 1/2 = ((⌊x * 100⌋ + 1 : ℤ) : ℚ) := by push_cast; linarith
      rw [jsRound, harg, Int.floor_intCast]
    have hneg : ¬ (0 ≤ x * 100) := by
      intro h; nlinarith
    have h2 : roundHalfAwayFromZero (x * 100) = ⌊x * 100⌋ := by
      have harg : -(x * 100) + 1/2 = ((-⌊x * 100⌋ : ℤ) : ℚ) := by push_cast; linarith
      rw [roundHalfAwayFromZero, if_neg hneg, harg, Int.floor_intCast, neg_neg]
    rw [r2, r2Away, h1, h2]
    push_cast
    ring

/-- Witness for the amended C9 at `x = 0.005` (agreement on
nonnegatives) and `x = -0.005` (the one-cent offset on negative
halves). -/
theorem r2_round_half_up_amended_witness :
    ((0 : ℚ) ≤ 1/200 ∧ r2 (1/200) = r2Away (1/200)) ∧
    ((-(1/200) : ℚ) < 0 ∧ Int.fract ((-(1/200) : ℚ) * 100) = 1/2 ∧
      r2 (-(1/200)) = r2Away (-(1/200)) + 1/100) := by
  have hfr : Int.fract ((-(1/200) : ℚ) * 100) = 1/2 := by
    rw [Int.fract]; norm_num
  exact ⟨⟨by norm_num, r2_round_half_up_amended.1 (1/200) (by norm_num)⟩,
    ⟨by norm_num, hfr, r2_round_half_up_amended.2 (-(1/200)) (by norm_num) hfr⟩⟩

/-! ### Claims C6 and C7: fee monotonicity and no-fee-on-loss -/

/-- C6 counterexample: the claim quantifies over every real
`grossProfit > 0`, but `applyNoFees` rounds its output to cents, so at
`grossProfit = 0.005` the returned `netProfit` is `0.01 > 0.005` —
neither `netProfit ≤ grossProfit` nor `netProfit = grossProfit` holds. -/
theorem feeMonotonicity_counterexample :
    (0 : ℚ) < 1/200 ∧ (applyNoFees 0 (1/200)).netProfit = 1/100 ∧
    ¬ ((applyNoFees 0 (1/200)).netProfit ≤ 1/200) := by
  refine ⟨by norm_num, ?_, ?_⟩ <;> norm_num [applyNoFees, r2, jsRound]

/-- C6 amended: for cent-aligned `grossProfit > 0` (a whole number of
hundredths, i.e. `r2 grossProfit = grossProfit`), nonnegative stake and
nonnegative fee rates, every fee policy returns
`netProfit ≤ grossProfit`, with equality under `applyNoFees` and under
`applyProphetXFee` with any marker that does not normalize to `"PX!"`. -/
theorem feeMonotonicity_amended :
    ∀ (stake profit openFeePct winFeePct : ℚ) (marker : Option String),
      0 ≤ stake → 0 < profit → 0 ≤ openFeePct → 0 ≤ winFeePct →
      r2 profit = profit →
      (applyNoFees stake profit).netProfit = profit ∧
      (applyProphetXFee stake profit marker).netProfit ≤ profit ∧
      ((∀ s, marker = some s → bookNorm s ≠ "PX!") →
        (applyProphetXFee stake profit marker).netProfit = profit) ∧
      (applyCustomFeesUnified stake profit openFeePct winFeePct).netProfit ≤ profit := by
  intro stake profit openFeePct winFeePct marker hstake hprofit hopen hwin hcent
  have hCent : Cent profit := cent_of_r2_fix hcent
  refine ⟨hcent, ?_, ?_, ?_⟩
  · match marker with
    | none => simp only [applyProphetXFee, applyNoFees]; exact le_of_eq hcent
    | some s =>
      simp only [applyProphetXFee]
      by_cases hc : bookNorm s = "PX!" ∧ 0 < profit
      · rw [if_pos hc]
        have hwf : 0 ≤ r2 (profit * (1/100)) := r2_nonneg (by positivity)
        have : r2 (profit - r2 (profit * (1/100))) = profit - r2 (profit * (1/100)) :=
          r2_cent (cent_sub hCent (cent_r2 _))
        simp only [this]
        linarith
      · rw [if_neg hc]
        simp only [applyNoFees]
        exact le_of_eq hcent
  · intro hnot
    match marker with
    | none => simpa only [applyProphetXFee, applyNoFees] using hcent
    | some s =>
      have hne : bookNorm s ≠ "PX!" := hnot s rfl
      simp only [applyProphetXFee]
      rw [if_neg (fun h => hne h.1)]
      simpa only [applyNoFees] using hcent
  · simp only [applyCustomFeesUnified, if_pos hprofit]
    have hof : 0 ≤ r2 (stake * openFeePct) := r2_nonneg (by positivity)
    have hwf : 0 ≤ r2 (profit * winFeePct) := r2_nonneg (by positivity)
    have htot : r2 (r2 (stake * openFeePct) + r2 (profit * winFeePct)) =
        r2 (stake * openFeePct) + r2 (profit * winFeePct) :=
      r2_cent (cent_add (cent_r2 _) (cent_r2 _))
    have hnp : r2 (profit - r2 (r2 (stake * openFeePct) + r2 (profit * winFeePct))) =
        profit - r2 (r2 (stake * openFeePct) + r2 (profit * winFeePct)) :=
      r2_cent (cent_sub hCent (cent_r2 _))
    rw [hnp, htot]
    linarith

/-- Witness for the amended C6 at stake=10, profit=5, rates 10%/10%,
marker `"PX!"`. -/
theorem feeMonotonicity_amended_witness :
    (0 : ℚ) ≤ 10 ∧ (0 : ℚ) < 5 ∧ (0 : ℚ) ≤ 1/10 ∧ r2 (5 : ℚ) = 5 ∧
    ((applyNoFees 10 5).netProfit = 5 ∧
      (applyProphetXFee 10 5 (some "PX!")).netProfit ≤ 5 ∧
      ((∀ s, (some "PX!" : Option String) = some s → bookNorm s ≠ "PX!") →
        (applyProphetXFee 10 5 (some "PX!")).netProfit = 5) ∧
      (applyCustomFeesUnified 10 5 (1/10) (1/10)).netProfit ≤ 5) :=
  ⟨by norm_num, by norm_num, by norm_num, by norm_num [r2, jsRound],
    feeMonotonicity_amended 10 5 (1/10) (1/10) (some "PX!")
      (by norm_num) (by norm_num) (by norm_num) (by norm_num)
      (by norm_num [r2, jsRound])⟩

/-- C7 counterexample: the claim quantifies over every real
`profit ≤ 0`, but the pass-through path still rounds to cents:
`applyProphetXFee(0, -0.015, "PX!").netProfit = -0.01 ≠ -0.015`. -/
theorem noFeeOnLoss_counterexample :
    (-(3/200) : ℚ) ≤ 0 ∧
    (applyProphetXFee 0 (-(3/200)) (some "PX!")).netProfit = -(1/100) ∧
    (-(1/100) : ℚ) ≠ -(3/200) := by
  refine ⟨by norm_num, ?_, by norm_num⟩
  simp only [applyProphetXFee]
  rw [if_neg (fun h => absurd h.2 (by norm_num))]
  norm_num [applyNoFees, r2, jsRound]

/-- C7 amended: for cent-aligned `profit ≤ 0`, the `"PX!"` flat-winnings
fee leaves the profit unchanged. -/
theorem noFeeOnLoss_amended :
    ∀ stake profit : ℚ, profit ≤ 0 → r2 profit = profit →
      (applyProphetXFee stake profit (some "PX!")).netProfit = profit := by
  intro stake profit hle hcent
  simp only [applyProphetXFee]
  rw [if_neg (fun h => absurd h.2 (not_lt.mpr hle))]
  simpa only [applyNoFees] using hcent

/-- Witness for the amended C7 at stake=7, profit=-2. -/
theorem noFeeOnLoss_amended_witness :
    (-2 : ℚ) ≤ 0 ∧ r2 (-2 : ℚ) = -2 ∧
    (applyProphetXFee 7 (-2) (some "PX!")).netProfit = -2 :=
  ⟨by norm_num, by norm_num [r2, jsRound],
    noFeeOnLoss_amended 7 (-2) (by norm_num) (by norm_num [r2, jsRound])⟩

/-! ### Odds conversions (odds module) and claim C3 -/

/-- The value computed by `americanToDecimal` on non-zero odds:
`1 + odds/100` for positive odds, `1 + 100/|odds|` otherwise. -/
def americanToDecimalVal (odds : ℚ) : ℚ :=
  if 0 < odds then 1 + odds / 100 else 1 + 100 / |odds|

/-- `americanToDecimal(odds)`: throws (`none`) on odds 0; otherwise
`1 + odds/100` for positive odds, `1 + 100/|odds|` for negative. -/
def americanToDecimal (odds : ℚ) : Option ℚ :=
  if odds = 0 then none
  else some (americanToDecimalVal odds)

/-- `decimalToAmerican(decimal)`: throws (`none`) on `decimal ≤ 1`;
even money within 1e-6 of 2.0 returns +100; otherwise rounds. -/
def decimalToAmerican (d : ℚ) : Option ℤ :=
  if d ≤ 1 then none
  else if |d - 2| < 1/1000000 then some 100
  else if 2 < d then some (jsRound ((d - 1) * 100))
  else some (jsRound (-100 / (d - 1)))

theorem jsRound_intCast (n : ℤ) : jsRound ((n : ℚ)) = n := by
  rw [jsRound, Int.floor_eq_iff]
  constructor
  · linarith
  · norm_num

/-- C3: for every integer American odds `o` with `|o| ≥ 100`, converting
to decimal odds and back returns `o` exactly, except at the boundary
`o = -100`, whose decimal value 2.0 is normalized back to the canonical
even-money `+100`. -/
theorem americanDecimal_roundtrip :
    ∀ o : ℤ, 100 ≤ o ∨ o ≤ -100 →
      ∃ d, americanToDecimal (o : ℚ) = some d ∧
        decimalToAmerican d = some (if o = -100 then 100 else o) := by
  intro o ho
  have hne : (o : ℚ) ≠ 0 := by
    have : o ≠ 0 := by omega
    exact_mod_cast this
  rcases ho with h | h
  · -- positive side
    have hpos : (0 : ℚ) < (o : ℚ) := by exact_mod_cast (by omega : 0 < o)
    refine ⟨1 + (o : ℚ) / 100, ?_, ?_⟩
    · rw [americanToDecimal, if_neg hne, americanToDecimalVal, if_pos hpos]
    · by_cases h100 : o = 100
      · subst h100
        rw [if_neg (by norm_num), decimalToAmerican, if_neg (by norm_num),
          if_pos (by norm_num)]
      · have h101 : 101 ≤ o := by omega
        have h101' : (101 : ℚ) ≤ (o : ℚ) := by exact_mod_cast h101
        have c1 : ¬ ((1 : ℚ) + (o : ℚ) / 100 ≤ 1) := by
          push_neg; linarith
        have c2 : ¬ (|(1 : ℚ) + (o : ℚ) / 100 - 2| < 1/1000000) := by
          rw [abs_of_nonneg (by linarith)]
          push_neg; linarith
        have c3 : (2 : ℚ) < 1 + (o : ℚ) / 100 := by linarith
        rw [if_neg (show ¬ o = -100 by omega), decimalToAmerican, if_neg c1,
          if_neg c2, if_pos c3,
          show ((1 : ℚ) + (o : ℚ) / 100 - 1) * 100 = ((o : ℤ) : ℚ) by ring,
          jsRound_intCast]
  · -- negative side
    have hneg : ¬ ((0 : ℚ) < (o : ℚ)) := by
      push_neg
      exact_mod_cast (by omega : o ≤ 0)
    have hopos : (0 : ℚ) < -(o : ℚ) := by
      have : (o : ℚ) ≤ -100 := by exact_mod_cast h
      linarith
    have habs : |(o : ℚ)| = -(o : ℚ) := abs_of_nonpos (by linarith)
    refine ⟨1 + 100 / -(o : ℚ), ?_, ?_⟩
    · rw [americanToDecimal, if_neg hne, americanToDecimalVal, if_neg hneg, habs]
    · have hfrac_pos : (0 : ℚ) < 100 / -(o : ℚ) := by positivity
      by_cases h100 : o = -100
      · subst h100
        rw [if_pos rfl, decimalToAmerican, if_neg (by norm_num), if_pos (by norm_num)]
      · have h101 : o ≤ -101 := by omega
        have h101' : (101 : ℚ) ≤ -(o : ℚ) := by
          have : (o : ℚ) ≤ -101 := by exact_mod_cast h101
          linarith
        have hfrac_le : 100 / -(o : ℚ) ≤ 100 / 101 := by
          apply div_le_div_of_nonneg_left (by norm_num) (by norm_num) h101'
        have c1 : ¬ ((1 : ℚ) + 100 / -(o : ℚ) ≤ 1) := by push_neg; linarith
        have c2 : ¬ (|((1 : ℚ) + 100 / -(o : ℚ)) - 2| < 1/1000000) := by
          rw [abs_of_nonpos (by linarith)]
          push_neg; linarith
        have c3 : ¬ ((2 : ℚ) < 1 + 100 / -(o : ℚ)) := by push_neg; linarith
        have ho' : -(o : ℚ) ≠ 0 := ne_of_gt hopos
        have hval : -100 / ((1 : ℚ) + 100 / -(o : ℚ) - 1) = ((o : ℤ) : ℚ) := by
          rw [show (1 : ℚ) + 100 / -(o : ℚ) - 1 = 100 / -(o : ℚ) by ring]
          field_simp
        rw [if_neg h100, decimalToAmerican, if_neg c1, if_neg c2, if_neg c3,
          hval, jsRound_intCast]

/-- Witness for C3 at `o = 250` (round-trips to 250 exactly). -/
theorem americanDecimal_roundtrip_witness :
    ((100 : ℤ) ≤ 250 ∨ (250 : ℤ) ≤ -100) ∧
    ∃ d, americanToDecimal ((250 : ℤ) : ℚ) = some d ∧
      decimalToAmerican d = some (if (250 : ℤ) = -100 then 100 else 250) :=
  ⟨Or.inl (by norm_num), americanDecimal_roundtrip 250 (Or.inl (by norm_num))⟩

/-! ### Cover/equalize solver (`cover.ts`) -/

/-- A placed (or proposed) wager. -/
structure Position where
  side : ℕ
  stake : ℚ
  profit : ℚ
  odds : Option ℚ := none
  fees : Option ℚ := none
deriving DecidableEq

/-- Fee structure for new bets in the solver. -/
structure FeeAdapter where
  openFeeRate : ℚ
  settleFeeRate : ℚ
deriving DecidableEq

/-- `NO_FEES`: the identity fee adapter. -/
def NO_FEES : FeeAdapter := ⟨0, 0⟩

structure NetAfterCover where
  sideA : ℚ
  sideB : ℚ
deriving DecidableEq

structure CoverResult where
  side : ℕ
  stake : ℚ
  odds : ℚ
  netAfterCover : NetAfterCover
deriving DecidableEq

structure EqualizationResult where
  side : ℕ
  stake : ℚ
  targetTotal : ℚ
  odds : ℚ
deriving DecidableEq

/-- Per-side stake total: `positions.filter(p => p.side === s).reduce((sum,p) => sum + p.stake, 0)`. -/
def stakeOf (ps : List Position) (s : ℕ) : ℚ :=
  (ps.filter (fun p => p.side == s)).foldl (fun acc p => acc + p.stake) 0

/-- Per-side gross profit total. -/
def profitOf (ps : List Position) (s : ℕ) : ℚ :=
  (ps.filter (fun p => p.side == s)).foldl (fun acc p => acc + p.profit) 0

/-- Per-side fee total, `p.fees || 0` read as `getD 0`. -/
def feesOf (ps : List Position) (s : ℕ) : ℚ :=
  (ps.filter (fun p => p.side == s)).foldl (fun acc p => acc + p.fees.getD 0) 0

/-- `netA = profitA - stakeB - feesA`. -/
def netA (ps : List Position) : ℚ := profitOf ps 1 - stakeOf ps 2 - feesOf ps 1

/-- `netB = profitB - stakeA - feesB`. -/
def netB (ps : List Position) : ℚ := profitOf ps 2 - stakeOf ps 1 - feesOf ps 2

/-- `calculateCover(positions, coverSide, odds, feeAdapter)`: stake on
`coverSide` that brings that side's net to zero; `none` when odds are
falsy/non-finite or when `profitMultiplier - settleFeeRate ≤ 0`. -/
def calculateCover (positions : List Position) (coverSide : ℕ) (odds : ℚ)
    (feeAdapter : FeeAdapter) : Option CoverResult :=
  if odds = 0 then none
  else
    let stakeA := stakeOf positions 1
    let stakeB := stakeOf positions 2
    let profitA := profitOf positions 1
    let profitB := profitOf positions 2
    let feesA := feesOf positions 1
    let feesB := feesOf positions 2
    let decimalOdds := americanToDecimalVal odds
    let profitMultiplier := decimalOdds - 1
    let denominator := profitMultiplier - feeAdapter.settleFeeRate
    if denominator ≤ 0 then none
    else
      let coverStake :=
        if coverSide == 1 then
          if netA positions < 0 then
            if 0 < denominator - feeAdapter.openFeeRate then
              |netA positions| / (denominator - feeAdapter.openFeeRate)
            else 0
          else 0
        else
          if netB positions < 0 then
            if 0 < denominator - feeAdapter.openFeeRate then
              |netB positions| / (denominator - feeAdapter.openFeeRate)
            else 0
          else 0
      let coverProfit := coverStake * profitMultiplier
      let openFee := coverStake * feeAdapter.openFeeRate
      let settleFee := coverProfit * feeAdapter.settleFeeRate
      let netCoverProfit := coverProfit - settleFee
      let netAAfter :=
        if coverSide == 1 then (profitA + netCoverProfit) - stakeB - feesA - openFee
        else profitA - (stakeB + coverStake) - feesA
      let netBAfter :=
        if coverSide == 1 then profitB - (stakeA + coverStake) - feesB
        else (profitB + netCoverProfit) - stakeA - feesB - openFee
      some ⟨coverSide, coverStake, odds, ⟨netAAfter, netBAfter⟩⟩

/-- `calculateEqualization(positions, equalizeSide, odds, feeAdapter)`:
stake on `equalizeSide` that makes both nets equal; `none` when odds are
falsy or the nets are already within 0.01. -/
def calculateEqualization (positions : List Position) (equalizeSide : ℕ) (odds : ℚ)
    (feeAdapter : FeeAdapter) : Option EqualizationResult :=
  if odds = 0 then none
  else
    let stakeA := stakeOf positions 1
    let stakeB := stakeOf positions 2
    let profitA := profitOf positions 1
    let profitB := profitOf positions 2
    let feesA := feesOf positions 1
    let feesB := feesOf positions 2
    if |netA positions - netB positions| < 1/100 then none
    else
      let decimalOdds := americanToDecimalVal odds
      let profitMultiplier := decimalOdds - 1
      let numerator :=
        if equalizeSide == 1 then profitB - stakeA - feesB - profitA + stakeB + feesA
        else profitA - stakeB - feesA - profitB + stakeA + feesB
      let effectiveDenom :=
        1 + profitMultiplier * (1 - feeAdapter.settleFeeRate) - feeAdapter.openFeeRate
      let rawStake := if 0 < effectiveDenom then numerator / effectiveDenom else 0
      let currentTotal := if equalizeSide == 1 then stakeA else stakeB
      let equalizeStake := max 0 rawStake
      some ⟨equalizeSide, equalizeStake, currentTotal + equalizeStake, odds⟩

/-! ### Claims C4 and C5: equalization example and cover degenerate cases -/

/-- C4 counterexample: for the single position
`{side:A, stake:100, profit:100, odds:100}`, equalizing on side B at
odds +100 with `NO_FEES` returns stake 100 (both nets become 0), not the
claimed ≈200. -/
theorem equalization_noFees_counterexample :
    ∃ r, calculateEqualization [⟨1, 100, 100, some 100, none⟩] 2 100 NO_FEES = some r ∧
      r.stake = 100 ∧ |r.stake - 200| = 100 := by
  refine ⟨⟨2, 100, 100, 100⟩, ?_, by norm_num, by norm_num⟩
  simp only [calculateEqualization, netA, netB, stakeOf, profitOf, feesOf, NO_FEES,
    americanToDecimalVal, List.filter, List.foldl, Option.getD]
  norm_num

/-- C4 amended: for the single position
`{side:A, stake:100, profit:100, odds:100}`, `calculateEqualization` on
side B at odds +100 returns stake 100 with `NO_FEES`, and stake
`20000/197 ≈ 101.52` under the fee adapter `{openFeeRate: 0.01,
settleFeeRate: 0.02}`. -/
theorem equalization_single_position_amended :
    (∃ r, calculateEqualization [⟨1, 100, 100, some 100, none⟩] 2 100 NO_FEES = some r ∧
      r.stake = 100) ∧
    (∃ r, calculateEqualization [⟨1, 100, 100, some 100, none⟩] 2 100 ⟨1/100, 1/50⟩ = some r ∧
      r.stake = 20000/197 ∧ |r.stake - 10152/100| < 1/100) := by
  constructor
  · refine ⟨⟨2, 100, 100, 100⟩, ?_, by norm_num⟩
    simp only [calculateEqualization, netA, netB, stakeOf, profitOf, feesOf, NO_FEES,
      americanToDecimalVal, List.filter, List.foldl, Option.getD]
    norm_num
  · refine ⟨⟨2, 20000/197, 20000/197, 100⟩, ?_, by norm_num, by norm_num [abs_lt]⟩
    simp only [calculateEqualization, netA, netB, stakeOf, profitOf, feesOf,
      americanToDecimalVal, List.filter, List.foldl, Option.getD]
    norm_num

/-- C5 counterexample: when the cover side's net is negative and already
`profitMultiplier - settleFeeRate ≤ 0`, `calculateCover` returns `none`
(a null result), not a defined stake-0 answer: with a single side-B
position of stake 100, cover side A at odds +100 and settleFeeRate 1.5
the effective denominator is ≤ 0 yet the result is `none`. -/
theorem cover_feesTooHigh_counterexample :
    netA [⟨2, 100, 0, none, none⟩] < 0 ∧
    (americanToDecimalVal 100 - 1) - (3/2 : ℚ) - 0 ≤ 0 ∧
    calculateCover [⟨2, 100, 0, none, none⟩] 1 100 ⟨0, 3/2⟩ = none := by
  refine ⟨?_, ?_, ?_⟩
  · simp only [netA, stakeOf, profitOf, feesOf, List.filter, List.foldl, Option.getD]
    norm_num
  · norm_num [americanToDecimalVal]
  · simp only [calculateCover, americanToDecimalVal]
    norm_num

/-- C5 amended: `calculateCover` returns `none` whenever
`profitMultiplier - settleFeeRate ≤ 0` (even if the cover side's net is
negative); the degenerate stake-0 result is produced only when
`profitMultiplier - settleFeeRate > 0` but subtracting the open fee rate
makes the effective denominator ≤ 0, and likewise when the cover side's
net is already ≥ 0. -/
theorem cover_degenerate_amended :
    ∀ (ps : List Position) (coverSide : ℕ) (odds : ℚ) (fee : FeeAdapter),
      odds ≠ 0 →
      ((americanToDecimalVal odds - 1) - fee.settleFeeRate ≤ 0 →
        calculateCover ps coverSide odds fee = none) ∧
      (0 < (americanToDecimalVal odds - 1) - fee.settleFeeRate →
        (americanToDecimalVal odds - 1) - fee.settleFeeRate - fee.openFeeRate ≤ 0 →
        (if coverSide == 1 then netA ps else netB ps) < 0 →
        ∃ r, calculateCover ps coverSide odds fee = some r ∧ r.stake = 0) ∧
      (0 < (americanToDecimalVal odds - 1) - fee.settleFeeRate →
        0 ≤ (if coverSide == 1 then netA ps else netB ps) →
        ∃ r, calculateCover ps coverSide odds fee = some r ∧ r.stake = 0) := by
  intro ps coverSide odds fee hodds
  refine ⟨?_, ?_, ?_⟩
  · intro hden
    simp only [calculateCover, if_neg hodds]
    rw [if_pos hden]
  · intro hden heff hnet
    have hraw : ¬ (0 < (americanToDecimalVal odds - 1) - fee.settleFeeRate - fee.openFeeRate) :=
      not_lt.mpr heff
    simp only [calculateCover, if_neg hodds]
    rw [if_neg (not_le.mpr hden)]
    cases hc : (coverSide == 1) with
    | true =>
      simp only [hc, if_true] at hnet
      simp only [hc, if_true]
      rw [if_pos hnet, if_neg hraw]
      exact ⟨_, rfl, rfl⟩
    | false =>
      simp only [hc, Bool.false_eq_true, if_false] at hnet
      simp only [hc, Bool.false_eq_true, if_false]
      rw [if_pos hnet, if_neg hraw]
      exact ⟨_, rfl, rfl⟩
  · intro hden hnet
    simp only [calculateCover, if_neg hodds]
    rw [if_neg (not_le.mpr hden)]
    cases hc : (coverSide == 1) with
    | true =>
      simp only [hc, if_true] at hnet
      simp only [hc, if_true]
      rw [if_neg (not_lt.mpr hnet)]
      exact ⟨_, rfl, rfl⟩
    | false =>
      simp only [hc, Bool.false_eq_true, if_false] at hnet
      simp only [hc, Bool.false_eq_true, if_false]
      rw [if_neg (not_lt.mpr hnet)]
      exact ⟨_, rfl, rfl⟩

/-- Witness for the amended C5: a side-B position of stake 100, cover
side A at odds +100, fee rates open 0.8 / settle 0.3 (denominator
0.7 > 0 but effective denominator -0.1 ≤ 0, net A = -100 < 0). -/
theorem cover_degenerate_amended_witness :
    (100 : ℚ) ≠ 0 ∧
    (((americanToDecimalVal 100 - 1) - (3/10 : ℚ) ≤ 0 →
        calculateCover [⟨2, 100, 0, none, none⟩] 1 100 ⟨4/5, 3/10⟩ = none) ∧
      (0 < (americanToDecimalVal 100 - 1) - (3/10 : ℚ) →
        (americanToDecimalVal 100 - 1) - (3/10 : ℚ) - (4/5 : ℚ) ≤ 0 →
        (if (1 : ℕ) == 1 then netA [⟨2, 100, 0, none, none⟩]
          else netB [⟨2, 100, 0, none, none⟩]) < 0 →
        ∃ r, calculateCover [⟨2, 100, 0, none, none⟩] 1 100 ⟨4/5, 3/10⟩ = some r ∧
          r.stake = 0) ∧
      (0 < (americanToDecimalVal 100 - 1) - (3/10 : ℚ) →
        0 ≤ (if (1 : ℕ) == 1 then netA [⟨2, 100, 0, none, none⟩]
          else netB [⟨2, 100, 0, none, none⟩]) →
        ∃ r, calculateCover [⟨2, 100, 0, none, none⟩] 1 100 ⟨4/5, 3/10⟩ = some r ∧
          r.stake = 0)) :=
  ⟨by norm_num, cover_degenerate_amended [⟨2, 100, 0, none, none⟩] 1 100 ⟨4/5, 3/10⟩ (by norm_num)⟩

/-! ### Odds parsing (`parseOdds` and its helpers) -/

/-- Unicode minus / en-dash / em-dash normalized to ASCII minus. -/
def normDash (c : Char) : Char :=
  if c = '−' ∨ c = '–' ∨ c = '—' then '-' else c

/-- `String(raw).trim().toLowerCase()` followed by dash normalization and
`\s+` removal (trimming is subsumed by removing all whitespace). -/
def normalize (s : List Char) : List Char :=
  ((s.map jsToLower).map normDash).filter (fun c => !(jsIsSpace c))

/-- Decimal digit run to a natural number. -/
def digitsToNat (l : List Char) : ℕ :=
  l.foldl (fun acc c => 10 * acc + (c.toNat - 48)) 0

/-- The optional exponent tail of a JS float literal (`e`, optional
sign, digits); an incomplete exponent is ignored, as `parseFloat` does. -/
def applyExponent (m : ℚ) (l : List Char) : ℚ :=
  if l.head? = some 'e' then
    let r := l.tail
    let sgn : ℤ := if r.head? = some '-' then -1 else 1
    let r' := if r.head? = some '+' ∨ r.head? = some '-' then r.tail else r
    let ds := r'.takeWhile Char.isDigit
    if ds = [] then m else m * (10 : ℚ) ^ (sgn * (digitsToNat ds : ℤ))
  else m

/-- Unsigned mantissa of JS `parseFloat`: digits, optional `.` digits,
optional exponent; `none` when no digit was consumed (NaN). -/
def parseFloatMag (l : List Char) : Option ℚ :=
  let d1 := l.takeWhile Char.isDigit
  let r1 := l.dropWhile Char.isDigit
  if r1.head? = some '.' then
    let d2 := r1.tail.takeWhile Char.isDigit
    let r2 := r1.tail.dropWhile Char.isDigit
    if d1 = [] ∧ d2 = [] then none
    else some (applyExponent ((digitsToNat d1 : ℚ) + (digitsToNat d2 : ℚ) / 10 ^ d2.length) r2)
  else
    if d1 = [] then none
    else some (applyExponent (digitsToNat d1 : ℚ) r1)

/-- JS `parseFloat` on an already-trimmed token: optional sign then
unsigned mantissa; `none` stands for NaN (and for the Infinity results,
which every call site maps to null via `isFinite`). -/
def jsParseFloat (l : List Char) : Option ℚ :=
  if l.head? = some '+' then parseFloatMag l.tail
  else if l.head? = some '-' then (parseFloatMag l.tail).map (fun q => -q)
  else parseFloatMag l

def isHexDigit (c : Char) : Bool := c.isDigit || ('a' ≤ c && c ≤ 'f')

def hexToNat (l : List Char) : ℕ :=
  l.foldl (fun acc c => 16 * acc + (if c.isDigit then c.toNat - 48 else c.toNat - 87)) 0

/-- Unsigned part of JS `parseInt` with radix auto-detection
(`0x` prefix on lowercased input selects hex). -/
def parseIntMag (l : List Char) : Option ℤ :=
  if l.head? = some '0' ∧ l.tail.head? = some 'x' then
    let ds := (l.drop 2).takeWhile isHexDigit
    if ds = [] then none else some ((hexToNat ds : ℤ))
  else
    let ds := l.takeWhile Char.isDigit
    if ds = [] then none else some ((digitsToNat ds : ℤ))

/-- JS `parseInt` on an already-trimmed token. -/
def jsParseInt (l : List Char) : Option ℤ :=
  if l.head? = some '+' then parseIntMag l.tail
  else if l.head? = some '-' then (parseIntMag l.tail).map (fun n => -n)
  else parseIntMag l

/-- Anchored test for the regex `\d+\.\d+[ck]` (digits, dot, digits,
then `c` or `k`); greediness is equivalent here since `.`/`c`/`k` are
not digits. -/
def prefixDDck (l : List Char) : Bool :=
  let d1 := l.takeWhile Char.isDigit
  let r1 := l.dropWhile Char.isDigit
  if d1 = [] then false
  else if r1.head? = some '.' then
    let d2 := r1.tail.takeWhile Char.isDigit
    let r3 := r1.tail.dropWhile Char.isDigit
    if d2 = [] then false
    else r3.head? = some 'c' ∨ r3.head? = some 'k'
  else false

/-- Unanchored `\d+\.\d+[ck]` search (`/\d+\.\d+[ck]/.test(t)`). -/
def testDDck (l : List Char) : Bool := l.tails.any prefixDDck

/-- Anchored test for the regex `\d+%[ck]`. -/
def prefixPck (l : List Char) : Bool :=
  let d1 := l.takeWhile Char.isDigit
  let r1 := l.dropWhile Char.isDigit
  if d1 = [] then false
  else r1.head? = some '%' ∧ (r1.tail.head? = some 'c' ∨ r1.tail.head? = some 'k')

/-- Unanchored `\d+%[ck]` search (`/\d+%[ck]/.test(t)`). -/
def testPck (l : List Char) : Bool := l.tails.any prefixPck

/-- Implied probability `p ∈ (0,1)` to American odds, shared by the
percent, cents and bare-integer branches of `parseOdds`. -/
def probToAmerican (p : ℚ) : ℤ :=
  if 1/2 < p then jsRound (-(p / (1 - p)) * 100) else jsRound (((1 - p) / p) * 100)

/-- Branch 1 of `parseOdds`: trailing `%`. -/
def percentBranch (t : List Char) : Option ℤ :=
  (jsParseFloat t.dropLast).bind fun percent =>
    if percent ≤ 0 ∨ 100 ≤ percent then none
    else if percent = 50 then some 100
    else some (probToAmerican (percent / 100))

/-- Branch 2 of `parseOdds`: trailing `c`/`k` (Kalshi cents). -/
def ckBranch (t : List Char) : Option ℤ :=
  (jsParseFloat t.dropLast).bind fun cents =>
    if cents ≤ 0 ∨ 100 ≤ cents then none
    else if cents = 50 then some 100
    else some (probToAmerican (cents / 100))

/-- Branch 3 of `parseOdds`: fractional `num/den`. -/
def fracBranch (t : List Char) : Option ℤ :=
  let a := t.takeWhile (· != '/')
  let rest := t.dropWhile (· != '/')
  if rest.head? = some '/' then
    let b := rest.tail
    if b.contains '/' then none
    else
      (jsParseFloat a).bind fun num =>
        (jsParseFloat b).bind fun den =>
          if num ≤ 0 ∨ den ≤ 0 then none
          else
            let decimal := 1 + num / den
            if decimal = 2 then some 100
            else if 2 < decimal then some (jsRound ((decimal - 1) * 100))
            else some (jsRound (-100 / (decimal - 1)))
  else none

/-- Branch 4 of `parseOdds`: a token containing `.` (Kalshi price below
1, decimal odds above 1); negative decimals are rejected up front. -/
def dotBranch (t : List Char) : Option ℤ :=
  if t.head? = some '-' then none
  else
    (jsParseFloat t).bind fun value =>
      if value ≤ 0 then none
      else if value < 1 then
        if |value - 1/2| < 1/1000000 then some 100
        else if 1/2 < value then some (jsRound (-(value / (1 - value)) * 100))
        else some (jsRound (((1 - value) / value) * 100))
      else if value = 1 then none
      else
        if |value - 2| < 1/1000000 then some 100
        else if 2 < value then some (jsRound ((value - 1) * 100))
        else some (jsRound (-100 / (value - 1)))

/-- Branch 6 of `parseOdds`: explicit `+`/`-` American odds. -/
def signedBranch (t : List Char) : Option ℤ :=
  (jsParseInt t).bind fun american =>
    if american = 100 then some 100
    else if -100 < american ∧ american < 100 then none
    else some american

/-- Branch 7 of `parseOdds`: bare integer (Kalshi cents 1–99, even
money 100, American magnitude ≥ 101 disambiguated by the sign toggle). -/
def intBranch (t : List Char) (signToggle : String) : Option ℤ :=
  (jsParseInt t).bind fun num =>
    if num ≤ 0 then none
    else if 1 ≤ num ∧ num ≤ 99 then
      if num = 50 then some 100
      else some (probToAmerican ((num : ℚ) / 100))
    else if num = 100 then some 100
    else if 101 ≤ num then
      if signToggle = "-" then some (-num) else some num
    else none

/-- The detection-order dispatch of `parseOdds` after the mixed-format
guards: `%`, `c`/`k`, `/`, `.`, `ev`/`even`, explicit sign, bare
integer. -/
def parseOddsCore (t : List Char) (signToggle : String) : Option ℤ :=
  if t.getLast? = some '%' then percentBranch t
  else if t.getLast? = some 'c' ∨ t.getLast? = some 'k' then ckBranch t
  else if t.contains '/' then fracBranch t
  else if t.contains '.' then dotBranch t
  else if t = ['e', 'v'] ∨ t = ['e', 'v', 'e', 'n'] then some 100
  else if t.head? = some '+' ∨ t.head? = some '-' then signedBranch t
  else intBranch t signToggle

/-- Count of distinct format markers (percent sign anywhere, trailing
`c`/`k`, slash anywhere) in the normalized token. -/
def formatCount (t : List Char) : ℕ :=
  (if t.contains '%' then 1 else 0) +
  (if t.getLast? = some 'c' ∨ t.getLast? = some 'k' then 1 else 0) +
  (if t.contains '/' then 1 else 0)

/-- `parseOdds(raw, signToggleValue)`: normalization, mixed-format
guards, then the ordered format dispatch. -/
def parseOdds (raw : String) (signToggle : String) : Option ℤ :=
  let t := normalize raw.data
  if t = [] ∨ t = ['-'] then none
  else if 1 < formatCount t then none
  else if testDDck t then none
  else if testPck t then none
  else parseOddsCore t signToggle

/-! ### Claims C8 and C10: mixed-format and negative-decimal rejection -/

/-- C8 counterexample: `".5c"` combines a decimal point with a trailing
`c`, yet `parseOdds` accepts it — the `\d+\.\d+[ck]` guard requires
digits on both sides of the dot, so `".5c"` slips through and parses as
Kalshi cents 0.5, returning 19900. -/
theorem parseOdds_mixed_counterexample :
    (normalize ".5c".data).contains '.' = true ∧
    (normalize ".5c".data).getLast? = some 'c' ∧
    parseOdds ".5c" "+" = some 19900 := by
  refine ⟨by decide, by decide, ?_⟩
  have hmag : parseFloatMag ['.', '5'] = some (1/2) := by
    have e1 : (['.', '5'] : List Char).takeWhile Char.isDigit = [] := by decide
    have e2 : (['.', '5'] : List Char).dropWhile Char.isDigit = ['.', '5'] := by decide
    have e3 : (['.', '5'] : List Char).tail.takeWhile Char.isDigit = ['5'] := by decide
    have e4 : (['.', '5'] : List Char).tail.dropWhile Char.isDigit = [] := by decide
    simp only [parseFloatMag, e1, e2, e3, e4]
    rw [if_pos (by decide : (['.', '5'] : List Char).head? = some '.')]
    rw [if_neg (by decide : ¬(True ∧ (['5'] : List Char) = []))]
    rw [applyExponent, if_neg (by decide : ¬(([] : List Char).head? = some 'e'))]
    rw [show digitsToNat ['5'] = 5 from by decide, show digitsToNat ([] : List Char) = 0 from by decide]
    norm_num
  have hjpf : jsParseFloat ['.', '5'] = some (1/2) := by
    rw [jsParseFloat, if_neg (by decide), if_neg (by decide)]
    exact hmag
  have hck : ckBranch ['.', '5', 'c'] = some 19900 := by
    rw [ckBranch, show (['.', '5', 'c'] : List Char).dropLast = ['.', '5'] from by decide, hjpf]
    rw [Option.some_bind]
    rw [if_neg (by norm_num), if_neg (by norm_num)]
    rw [probToAmerican, if_neg (by norm_num)]
    norm_num [jsRound]
  rw [parseOdds]
  simp only [show normalize ".5c".data = ['.', '5', 'c'] from by decide]
  rw [if_neg (by decide), if_neg (by decide), if_neg (by decide), if_neg (by decide)]
  rw [parseOddsCore]
  rw [if_neg (by decide), if_pos (by decide)]
  exact hck

/-- C8 amended: `parseOdds` returns null for every input whose
normalized token fires one of the actual mixed-format guards: two or
more distinct format markers (percent sign, trailing `c`/`k`, slash), a
`\d+\.\d+[ck]` match, or a `\d+%[ck]` match.  Tokens like `".5c"`, with
no digit on one side of the dot, escape the guards and are parsed. -/
theorem parseOdds_mixed_guard_amended :
    ∀ (raw signToggle : String),
      (1 < formatCount (normalize raw.data) ∨
        testDDck (normalize raw.data) = true ∨
        testPck (normalize raw.data) = true) →
      parseOdds raw signToggle = none := by
  intro raw signToggle h
  simp only [parseOdds]
  by_cases h1 : normalize raw.data = [] ∨ normalize raw.data = ['-']
  · rw [if_pos h1]
  · rw [if_neg h1]
    by_cases h2 : 1 < formatCount (normalize raw.data)
    · rw [if_pos h2]
    · rw [if_neg h2]
      by_cases h3 : testDDck (normalize raw.data) = true
      · rw [if_pos h3]
      · rw [if_neg h3]
        rcases h with h | h | h
        · exact absurd h h2
        · exact absurd h h3
        · rw [if_pos h]

/-- Witness for the amended C8 at `"1.43c"` (fires the
`\d+\.\d+[ck]` guard). -/
theorem parseOdds_mixed_guard_amended_witness :
    (1 < formatCount (normalize "1.43c".data) ∨
      testDDck (normalize "1.43c".data) = true ∨
      testPck (normalize "1.43c".data) = true) ∧
    parseOdds "1.43c" "+" = none :=
  ⟨Or.inr (Or.inl (by decide)),
    parseOdds_mixed_guard_amended "1.43c" "+" (Or.inr (Or.inl (by decide)))⟩

theorem applyExponent_nonneg {m : ℚ} (r : List Char) (hm : 0 ≤ m) :
    0 ≤ applyExponent m r := by
  simp only [applyExponent]
  split_ifs <;>
    first
      | exact hm
      | exact mul_nonneg hm (le_of_lt (zpow_pos (by norm_num) _))

theorem parseFloatMag_nonneg :
    ∀ (l : List Char) (q : ℚ), parseFloatMag l = some q → 0 ≤ q := by
  intro l q h
  simp only [parseFloatMag] at h
  split_ifs at h <;> cases h <;> exact applyExponent_nonneg _ (by positivity)

theorem jsParseFloat_neg_head :
    ∀ (l : List Char) (q : ℚ), jsParseFloat ('-' :: l) = some q → q ≤ 0 := by
  intro l q h
  have hplus : ¬ (('-' :: l).head? = some '+') := by
    rw [List.head?_cons, Option.some.injEq]
    decide
  have hminus : ('-' :: l).head? = some '-' := List.head?_cons
  rw [jsParseFloat, if_neg hplus, if_pos hminus] at h
  cases hm : parseFloatMag (('-' :: l).tail) with
  | none => rw [hm] at h; cases h
  | some q' =>
    rw [hm] at h
    have hq : q = -q' := by
      have : (some q').map (fun x : ℚ => -x) = some (-q') := rfl
      rw [this, Option.some.injEq] at h
      exact h.symm
    have := parseFloatMag_nonneg _ _ hm
    rw [hq]
    linarith

/-- Every normalized token that begins with ASCII minus and contains a
decimal point falls into a branch of `parseOddsCore` that rejects it. -/
theorem parseOddsCore_none_of_neg_dot :
    ∀ (t : List Char) (signToggle : String),
      t.head? = some '-' → t.contains '.' = true → t ≠ ['-'] →
      parseOddsCore t signToggle = none := by
  intro t signToggle hh hd hne
  obtain ⟨xs, rfl⟩ : ∃ xs, t = '-' :: xs := by
    cases t with
    | nil => cases hh
    | cons a l =>
      rw [List.head?_cons, Option.some.injEq] at hh
      exact ⟨l, by rw [hh]⟩
  have hxs : xs ≠ [] := fun hcon => hne (by rw [hcon])
  have hdl : ('-' :: xs).dropLast = '-' :: xs.dropLast := by
    cases xs with
    | nil => exact absurd rfl hxs
    | cons b bs => rfl
  rw [parseOddsCore]
  by_cases hp : ('-' :: xs).getLast? = some '%'
  · rw [if_pos hp, percentBranch, hdl]
    cases hpf : jsParseFloat ('-' :: xs.dropLast) with
    | none => rfl
    | some q =>
      rw [Option.some_bind, if_pos (Or.inl (jsParseFloat_neg_head _ _ hpf))]
  · rw [if_neg hp]
    by_cases hckk : ('-' :: xs).getLast? = some 'c' ∨ ('-' :: xs).getLast? = some 'k'
    · rw [if_pos hckk, ckBranch, hdl]
      cases hpf : jsParseFloat ('-' :: xs.dropLast) with
      | none => rfl
      | some q =>
        rw [Option.some_bind, if_pos (Or.inl (jsParseFloat_neg_head _ _ hpf))]
    · rw [if_neg hckk]
      by_cases hsl : ('-' :: xs).contains '/' = true
      · rw [if_pos hsl]
        simp only [fracBranch]
        have ha : ('-' :: xs).takeWhile (· != '/') = '-' :: xs.takeWhile (· != '/') := by
          rw [List.takeWhile_cons, if_pos (by decide)]
        have hr : ('-' :: xs).dropWhile (· != '/') = xs.dropWhile (· != '/') := by
          rw [List.dropWhile_cons, if_pos (by decide)]
        rw [ha, hr]
        by_cases hslash : (xs.dropWhile (· != '/')).head? = some '/'
        · rw [if_pos hslash]
          by_cases hb : (xs.dropWhile (· != '/')).tail.contains '/' = true
          · rw [if_pos hb]
          · rw [if_neg hb]
            cases hpf : jsParseFloat ('-' :: xs.takeWhile (· != '/')) with
            | none => rfl
            | some num =>
              rw [Option.some_bind]
              cases hpd : jsParseFloat ((xs.dropWhile (· != '/')).tail) with
              | none => rfl
              | some den =>
                rw [Option.some_bind,
                  if_pos (Or.inl (jsParseFloat_neg_head _ _ hpf))]
        · rw [if_neg hslash]
      · rw [if_neg hsl, if_pos hd, dotBranch,
          if_pos (List.head?_cons : ('-' :: xs).head? = some '-')]

/-- C10: for every raw input whose normalized token begins with an ASCII
minus and contains a decimal point, `parseOdds` returns null — even
though `americanToDecimal(-118.5)` is a perfectly defined conversion
(`= 437/237`). -/
theorem parseOdds_rejects_negative_decimal :
    (∀ (raw signToggle : String),
      (normalize raw.data).head? = some '-' →
      (normalize raw.data).contains '.' = true →
      parseOdds raw signToggle = none) ∧
    americanToDecimal (-(237/2)) = some (437/237) := by
  constructor
  · intro raw signToggle hh hd
    simp only [parseOdds]
    by_cases h1 : normalize raw.data = [] ∨ normalize raw.data = ['-']
    · rw [if_pos h1]
    · rw [if_neg h1]
      by_cases h2 : 1 < formatCount (normalize raw.data)
      · rw [if_pos h2]
      · rw [if_neg h2]
        by_cases h3 : testDDck (normalize raw.data) = true
        · rw [if_pos h3]
        · rw [if_neg h3]
          by_cases h4 : testPck (normalize raw.data) = true
          · rw [if_pos h4]
          · rw [if_neg h4]
            refine parseOddsCore_none_of_neg_dot _ signToggle hh hd ?_
            intro hcon
            exact h1 (Or.inr hcon)
  · rw [americanToDecimal, if_neg (by norm_num), americanToDecimalVal,
      if_neg (by norm_num),
      show |(-(237/2) : ℚ)| = 237/2 by rw [abs_neg, abs_of_nonneg] ; norm_num]
    norm_num

/-- Witness for C10 at raw input `"-118.5"`. -/
theorem parseOdds_rejects_negative_decimal_witness :
    (normalize "-118.5".data).head? = some '-' ∧
    (normalize "-118.5".data).contains '.' = true ∧
    parseOdds "-118.5" "+" = none :=
  ⟨by decide, by decide,
    parseOdds_rejects_negative_decimal.1 "-118.5" "+" (by decide) (by decide)⟩

end Hedger
